import Mathlib

/-!
Verification development for the docuai backend: a shallow embedding of the
document-processing pipeline (`app/tasks/process.py`), the OCR text extractor
(`app/services/ocr.py`), the embedding chunker (`app/services/embeddings.py`)
and the hybrid-search score fusion (`app/api/documents.py`), together with
theorems settling the specification's claims about them.

External services (OCR engine, LLM classifier, field extractor, embedding
model, thumbnailer) are modelled as oracle inputs: each call site that can
raise in Python is an `Except String` value, `.error e` standing for a raised
exception with message `e`.  Python strings are `List Char`/`String`, float
scores are `ℚ`, and the relational tables are in-memory lists carried in an
explicit `DB` state.
-/

namespace DocuAI

/-! ### Character-level string helpers (Python `str.strip`, slicing) -/

/-- Python `str.strip()` on a character list: drop whitespace from both ends. -/
def stripChars (l : List Char) : List Char :=
  ((l.dropWhile Char.isWhitespace).reverse.dropWhile Char.isWhitespace).reverse

/-- Python `str.strip()` on a `String`. -/
def stripString (s : String) : String :=
  ⟨stripChars s.data⟩

/-- Clamp a Python slice index to `[0, n]`, with negative indices counted from
the end as Python does. -/
def pyClamp (n : Nat) (i : Int) : Nat :=
  if i < 0 then Int.toNat (i + n) else min i.toNat n

/-- Python slice `l[a:b]` on a character list. -/
def pySlice (l : List Char) (a b : Int) : List Char :=
  let a1 := pyClamp l.length a
  let b1 := pyClamp l.length b
  (l.drop a1).take (b1 - a1)

/-! ### `EmbeddingService.chunk_text` (`app/services/embeddings.py`)

The Python body is a `while start < text_len` loop with
`start += chunk_size - overlap`; when `chunk_size - overlap ≤ 0` the loop
never advances, so the loop is embedded with an explicit fuel: `some out`
means the loop terminated with result `out` within `fuel` iterations, `none`
means it had not terminated yet. -/

/-- One-loop-iteration-per-fuel-unit embedding of the `while` loop of
`chunk_text`.  Mirrors: slice `text[start : start + chunk_size]`, append its
strip when non-blank, advance `start` by `chunk_size - overlap`. -/
def chunk_text_go (text : List Char) (chunk_size overlap : Int) :
    Nat → Int → Option (List (List Char))
  | 0, _ => none
  | Nat.succ fuel, start =>
    if start < (text.length : Int) then
      let chunk := pySlice text start (start + chunk_size)
      match chunk_text_go text chunk_size overlap fuel (start + chunk_size - overlap) with
      | none => none
      | some rest =>
        some (if (stripChars chunk).isEmpty then rest else stripChars chunk :: rest)
    else
      some []

/-- `EmbeddingService.chunk_text(text, chunk_size, overlap)`: returns `[]`
immediately for empty text, otherwise runs the sliding-window loop from
`start = 0`. -/
def chunk_text (text : List Char) (chunk_size overlap : Int) (fuel : Nat) :
    Option (List (List Char)) :=
  if text.isEmpty then some [] else chunk_text_go text chunk_size overlap fuel 0

/-! ### `OCRService.extract_text` (`app/services/ocr.py`)

The tesseract and vision calls are oracles; every exception they can raise is
caught inside `extract_text`, and a missing file returns `""` after logging.
The result type is `Except String (List Char)` so that a raised exception
would be visible as `.error`; the translation shows no branch produces one. -/

structure OcrEnv where
  file_exists : Bool
  tesseract : Except String (List Char)
  vision : Except String (List Char)

/-- `OCRService.extract_text`: missing file returns `""`; tesseract errors are
caught leaving `text = ""`; when the stripped text is shorter than 50 chars the
vision fallback is tried (errors caught), keeping whichever stripped text is
longer; the final result is stripped. -/
def extract_text (env : OcrEnv) : Except String (List Char) :=
  if env.file_exists = false then .ok [] else
  let text :=
    match env.tesseract with
    | .ok t => t
    | .error _ => []
  let text :=
    if (stripChars text).length < 50 then
      match env.vision with
      | .ok vt => if (stripChars text).length < (stripChars vt).length then vt else text
      | .error _ => text
    else text
  .ok (stripChars text)

/-! ### Hybrid search fusion (`search_documents`, `app/api/documents.py`)

The two database queries deliver score maps id ↦ score; the endpoint takes the
union of the id sets, combines with weights `0.4`/`0.6` (missing entries as
`0.0`), sorts descending by combined score with Python's stable sort, and
paginates the sorted id list.  Scores are modelled as `ℚ`. -/

abbrev DocId := Nat

/-- `scores.get(i, 0.0)` on an association-list score map. -/
def scoreOf (m : List (DocId × ℚ)) (i : DocId) : ℚ :=
  match m.find? (fun p => p.1 == i) with
  | some p => p.2
  | none => 0

/-- `all_ids = set(ft_scores) | set(sem_scores)` (order abstracted as
first-occurrence order of the two key lists). -/
def hybridIds (ft sem : List (DocId × ℚ)) : List DocId :=
  (ft.map Prod.fst ++ sem.map Prod.fst).dedup

/-- The `combined` list: each id of the union paired with
`ft * 0.4 + sem * 0.6`. -/
def combinedScores (ft sem : List (DocId × ℚ)) : List (DocId × ℚ) :=
  (hybridIds ft sem).map (fun i => (i, scoreOf ft i * (2 / 5) + scoreOf sem i * (3 / 5)))

/-- `combined.sort(key=lambda x: x[1], reverse=True)`: stable descending sort
by combined score. -/
def hybridRank (ft sem : List (DocId × ℚ)) : List (DocId × ℚ) :=
  (combinedScores ft sem).mergeSort (fun a b => decide (b.2 ≤ a.2))

/-- `page_ids = [c[0] for c in combined[offset : offset + size]]`. -/
def hybridPage (ft sem : List (DocId × ℚ)) (offset size : Nat) : List DocId :=
  (((hybridRank ft sem).drop offset).take size).map Prod.fst

/-! ### Data model of the relevant tables (`app/models.py`) -/

inductive DocumentStatus
  | pending
  | processing
  | done
  | error
deriving DecidableEq, Repr

/-- The columns of a `Document` row that the pipeline reads or writes.
`modified_date` and `created_date` are abstract timestamps (`Nat`). -/
structure Doc where
  title : Option String := none
  content : Option String := none
  embedding : Option (List ℚ) := none
  status : DocumentStatus := .pending
  page_count : Option Nat := none
  file_size : Option Nat := none
  mime_type : Option String := none
  thumbnail_path : Option String := none
  created_date : Option Nat := none
  modified_date : Nat := 0
  document_type_id : Option Nat := none
  correspondent_id : Option Nat := none
deriving DecidableEq, Repr

/-- A `ProcessingLog` row. -/
structure LogEntry where
  document_id : Nat
  step : String
  status : String
  message : String
deriving DecidableEq, Repr

/-- A `CustomField` row. -/
structure FieldRow where
  document_id : Nat
  field_name : String
  field_value : String
  field_type : String
deriving DecidableEq, Repr

/-- A `Tag` row (color column irrelevant to the claims, omitted). -/
structure TagRow where
  id : Nat
  name : String
  slug : String
deriving DecidableEq, Repr

/-- A `DocumentType` or `Correspondent` row. -/
structure VocabRow where
  id : Nat
  name : String
  slug : String
deriving DecidableEq, Repr

/-- The database state touched by the two tasks.  `logs` grows append-only in
session order; `next_id` supplies primary keys for rows created on demand. -/
structure DB where
  docs : List (Nat × Doc) := []
  logs : List LogEntry := []
  fields : List FieldRow := []
  tags : List TagRow := []
  doc_tags : List (Nat × Nat) := []
  doc_types : List VocabRow := []
  correspondents : List VocabRow := []
  next_id : Nat := 0
deriving DecidableEq, Repr

/-- `session.execute(select(Document).where(Document.id == i)).scalar_one_or_none()`. -/
def lookupDoc (db : DB) (i : Nat) : Option Doc :=
  (db.docs.find? (fun p => p.1 == i)).map Prod.snd

/-- Write back the (mutated) ORM row for document `i`. -/
def updateDoc (db : DB) (i : Nat) (d : Doc) : DB :=
  { db with docs := db.docs.map (fun p => if p.1 == i then (i, d) else p) }

/-- `_log_step`: append one `ProcessingLog` row. -/
def log_step (db : DB) (i : Nat) (step status message : String) : DB :=
  { db with logs := db.logs ++ [⟨i, step, status, message⟩] }

/-- Number of log entries for document `i` with the given step name. -/
def countStep (db : DB) (i : Nat) (step : String) : Nat :=
  db.logs.countP (fun l => l.document_id == i && l.step == step)

/-! ### `_slugify` (`app/tasks/process.py`)

`name.lower().strip()`, drop characters outside `[\w\s-]`, collapse runs of
whitespace/underscore to `-`, collapse runs of `-`, strip `-`, and fall back
to `"untitled"` when empty.  `\w` is modelled at the ASCII level as
alphanumeric-or-underscore. -/

def isWordChar (c : Char) : Bool := c.isAlphanum || c == '_'

/-- Replace each maximal run of characters satisfying `p` by the single
character `rep` (the Boolean records whether the previous character was in a
run), as `re.sub(pattern+, rep, s)` does. -/
def collapseRuns (p : Char → Bool) (rep : Char) : List Char → Bool → List Char
  | [], _ => []
  | c :: rest, inRun =>
    if p c then
      if inRun then collapseRuns p rep rest true
      else rep :: collapseRuns p rep rest true
    else c :: collapseRuns p rep rest false

def slugify (name : String) : String :=
  let s := name.data.map Char.toLower
  let s := stripChars s
  let s := s.filter (fun c => isWordChar c || c.isWhitespace || c == '-')
  let s := collapseRuns (fun c => c.isWhitespace || c == '_') '-' s false
  let s := collapseRuns (fun c => c == '-') '-' s false
  let s := ((s.dropWhile (· == '-')).reverse.dropWhile (· == '-')).reverse
  if s.isEmpty then "untitled" else ⟨s⟩

/-! ### Oracles for the services called by the tasks

Each callout that can raise is an `Except String` value; `parse_isoformat`
models `datetime.fromisoformat` (`none` = `ValueError`), `now` models
`datetime.utcnow()`. -/

/-- The object returned by `ClassifierService.classify`; Python truthiness of
its string fields is `≠ ""`. -/
structure ClassifyResult where
  title : String := ""
  date : String := ""
  document_type : String := ""
  correspondent : String := ""
  tags : List String := []
deriving DecidableEq, Repr

/-- The dict returned by `PDFService.get_file_info`; `.get(key, default)`
becomes `Option.getD`. -/
structure FileInfo where
  pages : Option Nat := none
  size : Option Nat := none
  mime_type : Option String := none
deriving DecidableEq, Repr

/-- Outcomes of the external service calls made during one run on one
document, plus the ambient clock and ISO-date parser. -/
structure Services where
  ocr : Except String String
  classify : Except String ClassifyResult
  extract_fields : Except String (List (String × String × String))
  embed_text : Except String (List ℚ)
  generate_thumbnail : Except String Bool
  get_file_info : Except String FileInfo
  parse_isoformat : String → Option Nat := fun _ => none
  now : Nat := 0

/-- Python truthiness of a nullable integer column (`not doc.file_size`). -/
def truthyNat : Option Nat → Bool
  | none => false
  | some n => n != 0

/-- Python truthiness of a nullable string column (`not doc.mime_type`). -/
def truthyStr : Option String → Bool
  | none => false
  | some s => s != ""

/-! ### The classification stage's vocabulary side effects -/

def findBySlug (rows : List VocabRow) (slug : String) : Option VocabRow :=
  rows.find? (fun r => r.slug == slug)

/-- Get-or-create the `DocumentType` row by slug and point the document at it. -/
def applyDocType (doc : Doc) (db : DB) (name : String) : Doc × DB :=
  match findBySlug db.doc_types (slugify name) with
  | some dt => ({ doc with document_type_id := some dt.id }, db)
  | none =>
    ({ doc with document_type_id := some db.next_id },
     { db with doc_types := db.doc_types ++ [⟨db.next_id, name, slugify name⟩],
               next_id := db.next_id + 1 })

/-- Get-or-create the `Correspondent` row by slug and point the document at it. -/
def applyCorrespondent (doc : Doc) (db : DB) (name : String) : Doc × DB :=
  match findBySlug db.correspondents (slugify name) with
  | some c => ({ doc with correspondent_id := some c.id }, db)
  | none =>
    ({ doc with correspondent_id := some db.next_id },
     { db with correspondents := db.correspondents ++ [⟨db.next_id, name, slugify name⟩],
               next_id := db.next_id + 1 })

def findTag (tags : List TagRow) (slug : String) : Option TagRow :=
  tags.find? (fun t => t.slug == slug)

/-- One iteration of the tag loop: skip empty slugs, get-or-create the `Tag`
row by slug, and insert the `(document, tag)` association only when the pair
does not already exist. -/
def applyTagName (i : Nat) (db : DB) (tag_name : String) : DB :=
  if slugify tag_name == "" then db
  else
    match findTag db.tags (slugify tag_name) with
    | some t =>
      if db.doc_tags.contains (i, t.id) then db
      else { db with doc_tags := db.doc_tags ++ [(i, t.id)] }
    | none =>
      let db2 : DB :=
        { db with tags := db.tags ++ [⟨db.next_id, tag_name, slugify tag_name⟩],
                  next_id := db.next_id + 1 }
      if db2.doc_tags.contains (i, db.next_id) then db2
      else { db2 with doc_tags := db2.doc_tags ++ [(i, db.next_id)] }

/-- The `for tag_name in result.tags` loop. -/
def applyTags (i : Nat) (db : DB) (names : List String) : DB :=
  names.foldl (applyTagName i) db

/-! ### The five stages of `process_document` (steps 2–5 of the try blocks) -/

/-- Step 2 of `process_document`: classification.  On oracle failure, one
`classify`/`error` log entry and nothing else; on success, title/date/type/
correspondent/tag side effects then a `classify`/`success` entry. -/
def classifyStage (s : Services) (i : Nat) (doc : Doc) (db : DB) : Doc × DB :=
  match s.classify with
  | .error e => (doc, log_step db i "classify" "error" e)
  | .ok r =>
    let doc := if r.title ≠ "" then { doc with title := some r.title } else doc
    let doc :=
      if r.date ≠ "" then
        match s.parse_isoformat r.date with
        | some d => { doc with created_date := some d }
        | none => doc
      else doc
    let p := if r.document_type ≠ "" then applyDocType doc db r.document_type else (doc, db)
    let p := if r.correspondent ≠ "" then applyCorrespondent p.1 p.2 r.correspondent else p
    let db := applyTags i p.2 r.tags
    (p.1, log_step db i "classify" "success" ("Title: " ++ r.title))

/-- Step 3 of `process_document`: field extraction, additive inserts only. -/
def fieldsStage (s : Services) (i : Nat) (doc : Doc) (db : DB) : Doc × DB :=
  match s.extract_fields with
  | .error e => (doc, log_step db i "fields" "error" e)
  | .ok fs =>
    let db := { db with fields := db.fields ++ fs.map (fun f => ⟨i, f.1, f.2.1, f.2.2⟩) }
    (doc, log_step db i "fields" "success" ("Extracted " ++ toString fs.length ++ " fields"))

/-- Step 4 of `process_document`: embedding generation. -/
def embeddingsStage (s : Services) (i : Nat) (doc : Doc) (db : DB) : Doc × DB :=
  match s.embed_text with
  | .error e => (doc, log_step db i "embeddings" "error" e)
  | .ok v =>
    ({ doc with embedding := some v },
     log_step db i "embeddings" "success" "Generated 384-dim embedding")

/-- Step 5 of `process_document`: thumbnail and file info.  `page_count` is
assigned unconditionally from the reported page count; `file_size` and
`mime_type` only when falsy.  An exception in `generate_thumbnail` or in
`get_file_info` yields one `thumbnail`/`error` entry, keeping the assignments
already made. -/
def thumbnailStage (s : Services) (i : Nat) (doc : Doc) (db : DB) : Doc × DB :=
  match s.generate_thumbnail with
  | .error e => (doc, log_step db i "thumbnail" "error" e)
  | .ok success =>
    let doc := if success then { doc with thumbnail_path := some (toString i ++ ".png") } else doc
    match s.get_file_info with
    | .error e => (doc, log_step db i "thumbnail" "error" e)
    | .ok fi =>
      let doc := { doc with page_count := some (fi.pages.getD 0) }
      let doc := if truthyNat doc.file_size then doc else { doc with file_size := some (fi.size.getD 0) }
      let doc := if truthyStr doc.mime_type then doc else { doc with mime_type := some (fi.mime_type.getD "") }
      (doc, log_step db i "thumbnail" "success" "Thumbnail generated")

/-- The dict returned by a task (`{"status": ..., ...}`). -/
inductive RunResult
  | notFound
  | ocrError (message : String)
  | ok
deriving DecidableEq, Repr

/-- Steps 2–5 of `process_document` followed by the `Done` block: classify,
fields, embeddings, thumbnail in order, then status `done`, `modified_date`
refreshed, one `complete` entry, commit. -/
def afterOcr (s : Services) (i : Nat) (doc : Doc) (db : DB) : DB :=
  let c := classifyStage s i doc db
  let f := fieldsStage s i c.1 c.2
  let em := embeddingsStage s i f.1 f.2
  let t := thumbnailStage s i em.1 em.2
  let docF := { t.1 with status := DocumentStatus.done, modified_date := s.now }
  log_step (updateDoc t.2 i docF) i "complete" "success" "Processing complete"

/-- `process_document` (`app/tasks/process.py`): look the document up (missing
→ error dict, no state change), set `processing`, log `start`; step 1 OCR is
fatal (log `ocr`/`error`, set status `error`, return the error dict); on OCR
success store the content and run `afterOcr`.  All modelled stage failures are
caught inside the stage blocks, so the top-level retry handler is unreachable
here and is not modelled. -/
def process_document (db : DB) (i : Nat) (s : Services) : RunResult × DB :=
  match lookupDoc db i with
  | none => (.notFound, db)
  | some doc0 =>
    let doc := { doc0 with status := DocumentStatus.processing }
    let db := log_step (updateDoc db i doc) i "start" "info" "Processing started"
    match s.ocr with
    | .error e =>
      let db := log_step db i "ocr" "error" e
      (.ocrError e, updateDoc db i { doc with status := DocumentStatus.error })
    | .ok text =>
      let doc := { doc with content := some text }
      let db := log_step (updateDoc db i doc) i "ocr" "success"
        ("Extracted " ++ toString text.length ++ " characters")
      (.ok, afterOcr s i doc db)

/-- The reclassification block of `reprocess_document`: title and date only,
then one `reclassify` entry. -/
def reclassifyStage (s : Services) (i : Nat) (doc : Doc) (db : DB) : Doc × DB :=
  match s.classify with
  | .error e => (doc, log_step db i "reclassify" "error" e)
  | .ok r =>
    let doc := if r.title ≠ "" then { doc with title := some r.title } else doc
    let doc :=
      if r.date ≠ "" then
        match s.parse_isoformat r.date with
        | some d => { doc with created_date := some d }
        | none => doc
      else doc
    (doc, log_step db i "reclassify" "success" ("Title: " ++ r.title))

/-- The field re-extraction block of `reprocess_document` (runs after the
unconditional delete of the document's old `CustomField` rows). -/
def refieldsStage (s : Services) (i : Nat) (doc : Doc) (db : DB) : Doc × DB :=
  match s.extract_fields with
  | .error e => (doc, log_step db i "reextract_fields" "error" e)
  | .ok fs =>
    let db := { db with fields := db.fields ++ fs.map (fun f => ⟨i, f.1, f.2.1, f.2.2⟩) }
    (doc, log_step db i "reextract_fields" "success" (toString fs.length ++ " fields"))

/-- The embedding regeneration block of `reprocess_document`. -/
def reembedStage (s : Services) (i : Nat) (doc : Doc) (db : DB) : Doc × DB :=
  match s.embed_text with
  | .error e => (doc, log_step db i "reembed" "error" e)
  | .ok v => ({ doc with embedding := some v }, log_step db i "reembed" "success" "Embedding regenerated")

/-- The body of `reprocess_document` after the `reprocess_start` entry:
reclassify (title/date only); delete all of the document's `CustomField` rows,
then re-extract; re-embed; finally status `done`, `modified_date` refreshed,
one `reprocess_complete` entry. -/
def reprocessTail (s : Services) (i : Nat) (doc : Doc) (db : DB) : DB :=
  let rc := reclassifyStage s i doc db
  let db2 : DB := { rc.2 with fields := rc.2.fields.filter (fun fr => fr.document_id ≠ i) }
  let rf := refieldsStage s i rc.1 db2
  let re := reembedStage s i rf.1 rf.2
  let docF := { re.1 with status := DocumentStatus.done, modified_date := s.now }
  log_step (updateDoc re.2 i docF) i "reprocess_complete" "success" "Reprocessing complete"

/-- `reprocess_document` (`app/tasks/process.py`): look up (missing → error
dict), set `processing`, log `reprocess_start`; if the stored content is blank
re-run OCR (an OCR failure here is only logged to the app logger — no
`ProcessingLog` row — and leaves content as it was); then run
`reprocessTail`. -/
def reprocess_document (db : DB) (i : Nat) (s : Services) : RunResult × DB :=
  match lookupDoc db i with
  | none => (.notFound, db)
  | some doc0 =>
    let doc := { doc0 with status := DocumentStatus.processing }
    let db := log_step (updateDoc db i doc) i "reprocess_start" "info" "Reprocessing started"
    let text := doc.content.getD ""
    let doc :=
      if stripString text == "" then
        match s.ocr with
        | .ok t => { doc with content := some t }
        | .error _ => doc
      else doc
    (.ok, reprocessTail s i doc db)

/-! ### Concrete fixtures used to instantiate the theorems -/

/-- A database holding a single freshly ingested document with id 0. -/
def exDB : DB := { docs := [(0, {})] }

/-- Service outcomes where every external call raises. -/
def exSvcErr : Services :=
  { ocr := .error "boom", classify := .error "boom", extract_fields := .error "boom",
    embed_text := .error "boom", generate_thumbnail := .error "boom",
    get_file_info := .error "boom" }

/-- Service outcomes where every external call succeeds. -/
def exSvcOk : Services :=
  { ocr := .ok "hello world", classify := .ok {}, extract_fields := .ok [("total", "42", "amount")],
    embed_text := .ok [1], generate_thumbnail := .ok true,
    get_file_info := .ok { pages := some 3, size := some 10, mime_type := some "application/pdf" } }

/-- Service outcomes for exercising the thumbnail stage alone. -/
def exSvcThumb : Services :=
  { ocr := .error "x", classify := .error "x", extract_fields := .error "x",
    embed_text := .error "x", generate_thumbnail := .ok false,
    get_file_info := .ok { pages := some 3, size := some 10, mime_type := some "application/pdf" } }

/-- Service outcomes whose classifier suggests two tag names with the same slug. -/
def exSvcTags : Services :=
  { ocr := .ok "hello", classify := .ok { tags := ["Invoice", "invoice!"] },
    extract_fields := .error "x", embed_text := .error "x", generate_thumbnail := .error "x",
    get_file_info := .error "x" }

/-- A document whose `page_count` is already set before stage 5. -/
def exDocPages : Doc := { page_count := some 7 }

/-! ## Helper lemmas -/

theorem lookupDoc_congr {db1 db2 : DB} (i : Nat) (h : db1.docs = db2.docs) :
    lookupDoc db1 i = lookupDoc db2 i := by
  simp [lookupDoc, h]

theorem countStep_congr {db1 db2 : DB} (i : Nat) (step : String) (h : db1.logs = db2.logs) :
    countStep db1 i step = countStep db2 i step := by
  simp [countStep, h]

theorem find?_map_update {l : List (Nat × Doc)} {i : Nat} {q : Nat × Doc} (d : Doc)
    (h : l.find? (fun p => p.1 == i) = some q) :
    (l.map (fun p => if p.1 == i then (i, d) else p)).find? (fun p => p.1 == i) = some (i, d) := by
  induction l with
  | nil => simp at h
  | cons p rest ih =>
    by_cases hp : p.1 = i
    · simp [List.find?_cons, hp]
    · have hne : (p.1 == i) = false := beq_eq_false_iff_ne.mpr hp
      simp only [List.find?_cons, hne, cond_false] at h
      simp only [List.map_cons, hne, Bool.false_eq_true, if_false, List.find?_cons, hne,
        cond_false]
      exact ih h

theorem lookupDoc_updateDoc_self {db : DB} {i : Nat} {d0 : Doc} (d : Doc)
    (h : lookupDoc db i = some d0) : lookupDoc (updateDoc db i d) i = some d := by
  unfold lookupDoc at h
  obtain ⟨q, hq, hq2⟩ : ∃ q, db.docs.find? (fun p => p.1 == i) = some q ∧ q.2 = d0 := by
    cases hf : db.docs.find? (fun p => p.1 == i) with
    | none => simp [hf] at h
    | some q => exact ⟨q, rfl, by simpa [hf] using h⟩
  unfold lookupDoc updateDoc
  rw [show ({ db with docs := db.docs.map (fun p => if p.1 == i then (i, d) else p) } : DB).docs
      = db.docs.map (fun p => if p.1 == i then (i, d) else p) from rfl,
    find?_map_update d hq]
  rfl

theorem countStep_log_step_self (db : DB) (i : Nat) (step st m : String) :
    countStep (log_step db i step st m) i step = countStep db i step + 1 := by
  simp [countStep, log_step, List.countP_append, List.countP_cons]

theorem countStep_log_step_of_ne (db : DB) (i j : Nat) (step s st m : String) (h : s ≠ step) :
    countStep (log_step db j s st m) i step = countStep db i step := by
  simp [countStep, log_step, List.countP_append, List.countP_cons, h]

/-- Transfer of `countStep` across a database whose logs grew by one entry of a
different step name. -/
theorem countStep_of_logs_append {db1 db2 : DB} {ent : LogEntry} (i : Nat) (step : String)
    (hl : db2.logs = db1.logs ++ [ent]) (h : ent.step ≠ step) :
    countStep db2 i step = countStep db1 i step := by
  simp [countStep, hl, List.countP_append, List.countP_cons, h]

/-! Frame lemmas for the stage functions: which parts of the state each stage
leaves untouched, and the single log entry it appends. -/

theorem applyDocType_frame (doc : Doc) (db : DB) (n : String) :
    (applyDocType doc db n).2.docs = db.docs ∧
    (applyDocType doc db n).2.logs = db.logs ∧
    (applyDocType doc db n).2.fields = db.fields ∧
    (applyDocType doc db n).2.tags = db.tags ∧
    (applyDocType doc db n).2.doc_tags = db.doc_tags ∧
    (applyDocType doc db n).1.content = doc.content := by
  unfold applyDocType
  cases findBySlug db.doc_types (slugify n) <;> simp

theorem applyCorrespondent_frame (doc : Doc) (db : DB) (n : String) :
    (applyCorrespondent doc db n).2.docs = db.docs ∧
    (applyCorrespondent doc db n).2.logs = db.logs ∧
    (applyCorrespondent doc db n).2.fields = db.fields ∧
    (applyCorrespondent doc db n).2.tags = db.tags ∧
    (applyCorrespondent doc db n).2.doc_tags = db.doc_tags ∧
    (applyCorrespondent doc db n).1.content = doc.content := by
  unfold applyCorrespondent
  cases findBySlug db.correspondents (slugify n) <;> simp

theorem applyTagName_frame (i : Nat) (db : DB) (n : String) :
    (applyTagName i db n).docs = db.docs ∧
    (applyTagName i db n).logs = db.logs ∧
    (applyTagName i db n).fields = db.fields := by
  unfold applyTagName
  split
  · simp
  · split
    · split <;> simp
    · dsimp only
      split <;> simp

theorem applyTags_frame (i : Nat) (names : List String) (db : DB) :
    (applyTags i db names).docs = db.docs ∧
    (applyTags i db names).logs = db.logs ∧
    (applyTags i db names).fields = db.fields := by
  induction names generalizing db with
  | nil => simp [applyTags]
  | cons n rest ih =>
    have h1 := applyTagName_frame i db n
    have h2 := ih (applyTagName i db n)
    simp only [applyTags, List.foldl_cons] at *
    exact ⟨h2.1.trans h1.1, h2.2.1.trans h1.2.1, h2.2.2.trans h1.2.2⟩

theorem classifyStage_frame (s : Services) (i : Nat) (doc : Doc) (db : DB) :
    (classifyStage s i doc db).2.docs = db.docs ∧
    (classifyStage s i doc db).1.content = doc.content ∧
    (∃ st m, (classifyStage s i doc db).2.logs = db.logs ++ [⟨i, "classify", st, m⟩]) ∧
    (classifyStage s i doc db).2.fields = db.fields := by
  unfold classifyStage
  cases hc : s.classify with
  | error e => simp [log_step]
  | ok r =>
    simp only
    set d1 := if r.title ≠ "" then { doc with title := some r.title } else doc with hd1
    have hd1c : d1.content = doc.content := by
      rw [hd1]; split <;> simp
    set d2 := if r.date ≠ "" then
        (match s.parse_isoformat r.date with
          | some d => { d1 with created_date := some d }
          | none => d1)
      else d1 with hd2
    have hd2c : d2.content = doc.content := by
      rw [hd2]; split
      · cases s.parse_isoformat r.date <;> simp [hd1c]
      · exact hd1c
    set p1 := if r.document_type ≠ "" then applyDocType d2 db r.document_type else (d2, db) with hp1
    have hp1f : p1.2.docs = db.docs ∧ p1.2.logs = db.logs ∧ p1.2.fields = db.fields ∧
        p1.1.content = doc.content := by
      rw [hp1]; split
      · have h := applyDocType_frame d2 db r.document_type
        exact ⟨h.1, h.2.1, h.2.2.1, h.2.2.2.2.2.trans hd2c⟩
      · exact ⟨rfl, rfl, rfl, hd2c⟩
    set p2 := if r.correspondent ≠ "" then applyCorrespondent p1.1 p1.2 r.correspondent else p1
      with hp2
    have hp2f : p2.2.docs = db.docs ∧ p2.2.logs = db.logs ∧ p2.2.fields = db.fields ∧
        p2.1.content = doc.content := by
      rw [hp2]; split
      · have h := applyCorrespondent_frame p1.1 p1.2 r.correspondent
        exact ⟨h.1.trans hp1f.1, h.2.1.trans hp1f.2.1, h.2.2.1.trans hp1f.2.2.1,
          h.2.2.2.2.2.trans hp1f.2.2.2⟩
      · exact hp1f
    have ht := applyTags_frame i r.tags p2.2
    refine ⟨?_, hp2f.2.2.2, ⟨"success", "Title: " ++ r.title, ?_⟩, ?_⟩
    · simpa [log_step] using ht.1.trans hp2f.1
    · simp [log_step]
      exact ht.2.1.trans hp2f.2.1
    · simpa [log_step] using ht.2.2.trans hp2f.2.2.1

theorem fieldsStage_frame (s : Services) (i : Nat) (doc : Doc) (db : DB) :
    (fieldsStage s i doc db).2.docs = db.docs ∧
    (fieldsStage s i doc db).1.content = doc.content ∧
    (∃ st m, (fieldsStage s i doc db).2.logs = db.logs ++ [⟨i, "fields", st, m⟩]) := by
  unfold fieldsStage
  cases s.extract_fields <;> simp [log_step]

theorem embeddingsStage_frame (s : Services) (i : Nat) (doc : Doc) (db : DB) :
    (embeddingsStage s i doc db).2.docs = db.docs ∧
    (embeddingsStage s i doc db).1.content = doc.content ∧
    (∃ st m, (embeddingsStage s i doc db).2.logs = db.logs ++ [⟨i, "embeddings", st, m⟩]) ∧
    (embeddingsStage s i doc db).2.fields = db.fields := by
  unfold embeddingsStage
  cases s.embed_text <;> simp [log_step]

theorem thumbnailStage_frame (s : Services) (i : Nat) (doc : Doc) (db : DB) :
    (thumbnailStage s i doc db).2.docs = db.docs ∧
    (thumbnailStage s i doc db).1.content = doc.content ∧
    (∃ st m, (thumbnailStage s i doc db).2.logs = db.logs ++ [⟨i, "thumbnail", st, m⟩]) ∧
    (thumbnailStage s i doc db).2.fields = db.fields := by
  cases hg : s.generate_thumbnail with
  | error e => simp [thumbnailStage, hg, log_step]
  | ok success =>
    cases hf : s.get_file_info with
    | error e =>
      simp only [thumbnailStage, hg, hf]
      split_ifs <;> simp [log_step]
    | ok fi =>
      simp only [thumbnailStage, hg, hf]
      split_ifs <;> simp [log_step]

theorem reclassifyStage_frame (s : Services) (i : Nat) (doc : Doc) (db : DB) :
    (reclassifyStage s i doc db).2.docs = db.docs ∧
    (reclassifyStage s i doc db).1.content = doc.content ∧
    (∃ st m, (reclassifyStage s i doc db).2.logs = db.logs ++ [⟨i, "reclassify", st, m⟩]) ∧
    (reclassifyStage s i doc db).2.fields = db.fields := by
  cases hc : s.classify with
  | error e => simp [reclassifyStage, hc, log_step]
  | ok r =>
    simp only [reclassifyStage, hc]
    cases hp : s.parse_isoformat r.date <;> split_ifs <;> simp [log_step, hp]

theorem refieldsStage_frame (s : Services) (i : Nat) (doc : Doc) (db : DB) :
    (refieldsStage s i doc db).2.docs = db.docs ∧
    (refieldsStage s i doc db).1.content = doc.content ∧
    (∃ st m, (refieldsStage s i doc db).2.logs = db.logs ++ [⟨i, "reextract_fields", st, m⟩]) ∧
    (refieldsStage s i doc db).2.fields = db.fields ++
      (match s.extract_fields with
        | .ok fs => fs.map (fun f => (⟨i, f.1, f.2.1, f.2.2⟩ : FieldRow))
        | .error _ => []) := by
  cases he : s.extract_fields <;> simp [refieldsStage, he, log_step]

theorem reembedStage_frame (s : Services) (i : Nat) (doc : Doc) (db : DB) :
    (reembedStage s i doc db).2.docs = db.docs ∧
    (reembedStage s i doc db).1.content = doc.content ∧
    (∃ st m, (reembedStage s i doc db).2.logs = db.logs ++ [⟨i, "reembed", st, m⟩]) ∧
    (reembedStage s i doc db).2.fields = db.fields := by
  cases he : s.embed_text <;> simp [reembedStage, he, log_step]

theorem lookupDoc_log_step (db : DB) (j i : Nat) (a b c : String) :
    lookupDoc (log_step db j a b c) i = lookupDoc db i := rfl

/-! ## Claims -/

/-- C10: when the document id does not correspond to an existing record, the
run returns the "Document not found" error dict and leaves the database
untouched (no document, log, or field records created or modified), without
reaching the retry-raising handler. -/
theorem notFound_returns_error_without_changes (db : DB) (i : Nat) (s : Services)
    (hl : lookupDoc db i = none) :
    process_document db i s = (RunResult.notFound, db) := by
  simp [process_document, hl]

theorem notFound_returns_error_without_changes_witness :
    lookupDoc {} 0 = none ∧
      process_document {} 0
        { ocr := .error "x", classify := .error "x", extract_fields := .error "x",
          embed_text := .error "x", generate_thumbnail := .error "x",
          get_file_info := .error "x" } = (RunResult.notFound, {}) :=
  ⟨rfl, notFound_returns_error_without_changes {} 0 _ rfl⟩

/-- C2: when the OCR stage raises, the run returns the ocr error dict, the
document's status becomes `error` (content untouched), the only log entries
written by the run are the `start` entry and the `ocr`/`error` entry — in
particular no `classify`, `fields`, `embeddings`, `thumbnail` or `complete`
entry — and no field, tag, association or vocabulary rows are created. -/
theorem ocr_failure_aborts_run (db : DB) (i : Nat) (s : Services) (d0 : Doc) (e : String)
    (hl : lookupDoc db i = some d0) (ho : s.ocr = .error e) :
    (process_document db i s).1 = RunResult.ocrError e ∧
    (process_document db i s).2.logs = db.logs ++
      [⟨i, "start", "info", "Processing started"⟩, ⟨i, "ocr", "error", e⟩] ∧
    lookupDoc (process_document db i s).2 i = some { d0 with status := DocumentStatus.error } ∧
    (process_document db i s).2.fields = db.fields ∧
    (process_document db i s).2.tags = db.tags ∧
    (process_document db i s).2.doc_tags = db.doc_tags ∧
    (process_document db i s).2.doc_types = db.doc_types ∧
    (process_document db i s).2.correspondents = db.correspondents := by
  have h1 : lookupDoc (updateDoc db i { d0 with status := DocumentStatus.processing }) i
      = some { d0 with status := DocumentStatus.processing } := lookupDoc_updateDoc_self _ hl
  have h2 : lookupDoc (log_step (log_step (updateDoc db i
        { d0 with status := DocumentStatus.processing }) i "start" "info" "Processing started")
        i "ocr" "error" e) i = some { d0 with status := DocumentStatus.processing } := by
    rw [lookupDoc_log_step, lookupDoc_log_step]; exact h1
  simp only [process_document, hl, ho]
  exact ⟨by trivial, by simp [log_step, updateDoc], lookupDoc_updateDoc_self _ h2,
    by trivial, by trivial, by trivial, by trivial, by trivial⟩

theorem ocr_failure_aborts_run_witness :
    lookupDoc exDB 0 = some {} ∧ exSvcErr.ocr = Except.error "boom" ∧
      (process_document exDB 0 exSvcErr).1 = RunResult.ocrError "boom" ∧
      (process_document exDB 0 exSvcErr).2.logs =
        [⟨0, "start", "info", "Processing started"⟩, ⟨0, "ocr", "error", "boom"⟩] :=
  ⟨by decide, rfl, (ocr_failure_aborts_run exDB 0 exSvcErr {} "boom" (by decide) rfl).1,
    by simpa using (ocr_failure_aborts_run exDB 0 exSvcErr {} "boom" (by decide) rfl).2.1⟩

/-- C9 (amended): on the success path of stage 5, `file_size` and `mime_type`
are backfilled only when previously falsy (so values already set survive), but
`page_count` is overwritten unconditionally with the reported page count. -/
theorem thumbnail_backfill_amended (s : Services) (i : Nat) (doc : Doc) (db : DB) (b : Bool)
    (fi : FileInfo) (hg : s.generate_thumbnail = .ok b) (hf : s.get_file_info = .ok fi)
    (hs : truthyNat doc.file_size = true) (hm : truthyStr doc.mime_type = true) :
    (thumbnailStage s i doc db).1.file_size = doc.file_size ∧
    (thumbnailStage s i doc db).1.mime_type = doc.mime_type ∧
    (thumbnailStage s i doc db).1.page_count = some (fi.pages.getD 0) := by
  simp only [thumbnailStage, hg, hf]
  split_ifs <;> simp_all

/-- C9 counterexample: a document whose `page_count` is already set (7) still
has it overwritten (to the reported 3) by stage 5, refuting "stage 5 leaves
`page_count` unchanged when already set". -/
theorem thumbnail_overwrites_page_count :
    exDocPages.page_count = some 7 ∧
      (thumbnailStage exSvcThumb 0 exDocPages {}).1.page_count = some 3 := by
  constructor <;> decide

theorem thumbnail_backfill_amended_witness :
    truthyNat (Doc.file_size { exDocPages with file_size := some 10, mime_type := some "a" }) = true ∧
      (thumbnailStage exSvcThumb 0
        { exDocPages with file_size := some 10, mime_type := some "a" } {}).1.file_size = some 10 :=
  ⟨by decide,
    by
      have h := thumbnail_backfill_amended exSvcThumb 0
        { exDocPages with file_size := some 10, mime_type := some "a" } {} false
        { pages := some 3, size := some 10, mime_type := some "application/pdf" }
        rfl rfl (by decide) (by decide)
      simpa using h.1⟩

/-- C5 (amended): `extract_text` never raises at all: it always returns
`.ok`, and in particular returns the empty string (not an exception) when the
file at the given path is missing. -/
theorem extract_text_total (env : OcrEnv) :
    (∃ t, extract_text env = .ok t) ∧
      (env.file_exists = false → extract_text env = .ok []) := by
  constructor
  · unfold extract_text
    split
    · exact ⟨[], rfl⟩
    · exact ⟨_, rfl⟩
  · intro h
    simp [extract_text, h]

/-- C5 counterexample: with the file missing, `extract_text` returns the
empty string instead of raising, refuting "raises on unrecoverable I/O
(missing file)". -/
theorem extract_text_missing_file_returns_empty :
    extract_text { file_exists := false, tesseract := .error "io", vision := .error "io" }
      = .ok [] := rfl

theorem extract_text_total_witness :
    extract_text { file_exists := false, tesseract := .ok ['a'], vision := .error "io" }
      = .ok [] :=
  (extract_text_total _).2 rfl

/-- Auxiliary list facts for the field-replacement claim. -/
theorem filter_ne_then_eq (l : List FieldRow) (i : Nat) :
    ((l.filter (fun fr => fr.document_id ≠ i)).filter (fun fr => fr.document_id == i)) = [] := by
  induction l with
  | nil => rfl
  | cons a l ih => by_cases h : a.document_id = i <;> simp [h, ih]

theorem filter_eq_on_new (nf : List (String × String × String)) (i : Nat) :
    ((nf.map (fun f => (⟨i, f.1, f.2.1, f.2.2⟩ : FieldRow))).filter
      (fun fr => fr.document_id == i)) = nf.map (fun f => (⟨i, f.1, f.2.1, f.2.2⟩ : FieldRow)) := by
  induction nf with
  | nil => rfl
  | cons a l ih => simp [ih]

/-- The tail of a rerun leaves the custom-field table holding every other
document's rows plus exactly the newly extracted rows of this document, and
touches the `complete` / `reprocess_complete` log counts as expected. -/
theorem reprocessTail_spec (s : Services) (i : Nat) (doc : Doc) (db : DB) :
    (reprocessTail s i doc db).fields =
      db.fields.filter (fun fr => fr.document_id ≠ i) ++
        (match s.extract_fields with
          | .ok fs => fs.map (fun f => (⟨i, f.1, f.2.1, f.2.2⟩ : FieldRow))
          | .error _ => []) ∧
    countStep (reprocessTail s i doc db) i "complete" = countStep db i "complete" ∧
    countStep (reprocessTail s i doc db) i "reprocess_complete"
      = countStep db i "reprocess_complete" + 1 := by
  simp only [reprocessTail]
  set rc := reclassifyStage s i doc db with hrc
  obtain ⟨hrc1, hrc2, ⟨rcst, rcm, hrc3⟩, hrc4⟩ := reclassifyStage_frame s i doc db
  rw [← hrc] at hrc1 hrc2 hrc3 hrc4
  set dbf : DB := { rc.2 with fields := rc.2.fields.filter (fun fr => fr.document_id ≠ i) }
    with hdbf
  set rf := refieldsStage s i rc.1 dbf with hrf
  obtain ⟨hrf1, hrf2, ⟨rfst, rfm, hrf3⟩, hrf4⟩ := refieldsStage_frame s i rc.1 dbf
  rw [← hrf] at hrf1 hrf2 hrf3 hrf4
  set re := reembedStage s i rf.1 rf.2 with hre
  obtain ⟨hre1, hre2, ⟨rest, rem, hre3⟩, hre4⟩ := reembedStage_frame s i rf.1 rf.2
  rw [← hre] at hre1 hre2 hre3 hre4
  refine ⟨?_, ?_, ?_⟩
  · have hfin : (log_step (updateDoc re.2 i
        { re.1 with status := DocumentStatus.done, modified_date := s.now }) i
        "reprocess_complete" "success" "Reprocessing complete").fields = re.2.fields := rfl
    rw [hfin, hre4, hrf4, hdbf]
    simp only [hrc4]
  · rw [countStep_log_step_of_ne _ _ _ _ _ _ _ (by decide)]
    have h1 : countStep (updateDoc re.2 i
        { re.1 with status := DocumentStatus.done, modified_date := s.now }) i "complete"
        = countStep re.2 i "complete" := countStep_congr i _ rfl
    rw [h1, countStep_of_logs_append i "complete" hre3 (by simp),
      countStep_of_logs_append i "complete" hrf3 (by simp)]
    have h2 : countStep dbf i "complete" = countStep rc.2 i "complete" :=
      countStep_congr i _ (by rw [hdbf])
    rw [h2, countStep_of_logs_append i "complete" hrc3 (by simp)]
  · rw [show countStep (log_step (updateDoc re.2 i
        { re.1 with status := DocumentStatus.done, modified_date := s.now }) i
        "reprocess_complete" "success" "Reprocessing complete") i "reprocess_complete"
        = countStep (updateDoc re.2 i
          { re.1 with status := DocumentStatus.done, modified_date := s.now }) i
          "reprocess_complete" + 1 from countStep_log_step_self _ _ _ _ _]
    have h1 : countStep (updateDoc re.2 i
        { re.1 with status := DocumentStatus.done, modified_date := s.now }) i
        "reprocess_complete" = countStep re.2 i "reprocess_complete" := countStep_congr i _ rfl
    rw [h1, countStep_of_logs_append i "reprocess_complete" hre3 (by simp),
      countStep_of_logs_append i "reprocess_complete" hrf3 (by simp)]
    have h2 : countStep dbf i "reprocess_complete" = countStep rc.2 i "reprocess_complete" :=
      countStep_congr i _ (by rw [hdbf])
    rw [h2, countStep_of_logs_append i "reprocess_complete" hrc3 (by simp)]

/-- A rerun on an existing document always reaches the `done` block: its
result is the success dict and its final state is `reprocessTail` applied
after the `reprocess_start` entry. -/
theorem reprocess_document_shape (db : DB) (i : Nat) (s : Services) (d0 : Doc)
    (hl : lookupDoc db i = some d0) :
    ∃ docA, reprocess_document db i s =
      (RunResult.ok, reprocessTail s i docA
        (log_step (updateDoc db i { d0 with status := DocumentStatus.processing }) i
          "reprocess_start" "info" "Reprocessing started")) := by
  refine ⟨(if stripString ((({ d0 with status := DocumentStatus.processing } : Doc)).content.getD "")
        == "" then
      match s.ocr with
      | .ok t => { ({ d0 with status := DocumentStatus.processing } : Doc) with content := some t }
      | .error _ => ({ d0 with status := DocumentStatus.processing } : Doc)
    else ({ d0 with status := DocumentStatus.processing } : Doc)), ?_⟩
  simp only [reprocess_document, hl]

/-- The final custom-field table of a rerun: the document's old rows are gone,
and exactly the newly extracted rows (when extraction succeeded) remain. -/
theorem reprocess_fields_shape (db : DB) (i : Nat) (s : Services) (d0 : Doc)
    (hl : lookupDoc db i = some d0) :
    (reprocess_document db i s).2.fields =
      db.fields.filter (fun fr => fr.document_id ≠ i) ++
        (match s.extract_fields with
          | .ok fs => fs.map (fun f => (⟨i, f.1, f.2.1, f.2.2⟩ : FieldRow))
          | .error _ => []) := by
  obtain ⟨docA, heq⟩ := reprocess_document_shape db i s d0 hl
  rw [heq]
  have h := (reprocessTail_spec s i docA
    (log_step (updateDoc db i { d0 with status := DocumentStatus.processing }) i
      "reprocess_start" "info" "Reprocessing started")).1
  rw [show (RunResult.ok, reprocessTail s i docA
      (log_step (updateDoc db i { d0 with status := DocumentStatus.processing }) i
        "reprocess_start" "info" "Reprocessing started")).2
      = reprocessTail s i docA
        (log_step (updateDoc db i { d0 with status := DocumentStatus.processing }) i
          "reprocess_start" "info" "Reprocessing started") from rfl, h]
  rfl

/-- C4: a rerun deletes every existing `CustomField` row of the document
before inserting the newly extracted ones: afterwards every field row of the
document comes from the new extraction (none at all if extraction failed),
and on successful extraction the document's rows are exactly the new ones —
so no field name omitted by the new extraction survives. -/
theorem rerun_replaces_fields (db : DB) (i : Nat) (s : Services) (d0 : Doc)
    (hl : lookupDoc db i = some d0) :
    (∀ fr ∈ (reprocess_document db i s).2.fields, fr.document_id = i →
       ∃ nf, s.extract_fields = Except.ok nf ∧
         (fr.field_name, fr.field_value, fr.field_type) ∈ nf) ∧
    (∀ nf, s.extract_fields = Except.ok nf →
       ((reprocess_document db i s).2.fields.filter (fun fr => fr.document_id == i))
         = nf.map (fun f => (⟨i, f.1, f.2.1, f.2.2⟩ : FieldRow))) := by
  have hshape := reprocess_fields_shape db i s d0 hl
  constructor
  · intro fr hmem hid
    rw [hshape] at hmem
    rcases List.mem_append.mp hmem with hleft | hright
    · have := (List.mem_filter.mp hleft).2
      simp [hid] at this
    · cases he : s.extract_fields with
      | error e => rw [he] at hright; simp at hright
      | ok nf =>
        rw [he] at hright
        simp only [List.mem_map] at hright
        obtain ⟨f, hf, hfr⟩ := hright
        exact ⟨nf, rfl, by rw [← hfr]; simpa using hf⟩
  · intro nf he
    rw [hshape, he, List.filter_append, filter_ne_then_eq, filter_eq_on_new]
    rfl

/-- One pass of the tag loop preserves slug-uniqueness of the `Tag` table and
uniqueness of the `(document, tag)` association pairs: the row is created only
when no row with the slug exists, and the pair only when absent. -/
theorem applyTagName_nodup (i : Nat) (db : DB) (n : String)
    (h1 : (db.tags.map TagRow.slug).Nodup) (h2 : db.doc_tags.Nodup) :
    ((applyTagName i db n).tags.map TagRow.slug).Nodup ∧ (applyTagName i db n).doc_tags.Nodup := by
  unfold applyTagName
  split
  · exact ⟨h1, h2⟩
  · cases hfind : findTag db.tags (slugify n) with
    | some t =>
      dsimp only
      by_cases hc : db.doc_tags.contains (i, t.id) = true
      · rw [if_pos hc]
        exact ⟨h1, h2⟩
      · rw [if_neg hc]
        refine ⟨h1, ?_⟩
        have hnm : (i, t.id) ∉ db.doc_tags := fun hmem => hc (List.elem_iff.mpr hmem)
        simpa [List.nodup_append] using ⟨h2, hnm⟩
    | none =>
      dsimp only
      have hslug : ∀ x ∈ db.tags, ¬x.slug = slugify n := by
        intro t hmemt hts
        simp [findTag] at hfind
        exact hfind t hmemt hts
      have htags : ((db.tags ++ [(⟨db.next_id, n, slugify n⟩ : TagRow)]).map TagRow.slug).Nodup := by
        simpa [List.nodup_append] using ⟨h1, hslug⟩
      by_cases hc : db.doc_tags.contains (i, db.next_id) = true
      · rw [if_pos hc]
        exact ⟨htags, h2⟩
      · rw [if_neg hc]
        refine ⟨htags, ?_⟩
        have hnm : (i, db.next_id) ∉ db.doc_tags := fun hmem => hc (List.elem_iff.mpr hmem)
        simpa [List.nodup_append] using ⟨h2, hnm⟩

theorem applyTags_nodup (i : Nat) (names : List String) (db : DB)
    (h1 : (db.tags.map TagRow.slug).Nodup) (h2 : db.doc_tags.Nodup) :
    ((applyTags i db names).tags.map TagRow.slug).Nodup ∧ (applyTags i db names).doc_tags.Nodup := by
  induction names generalizing db with
  | nil => exact ⟨h1, h2⟩
  | cons n rest ih =>
    have h := applyTagName_nodup i db n h1 h2
    simpa [applyTags, List.foldl_cons] using ih (applyTagName i db n) h.1 h.2

theorem classifyStage_nodup (s : Services) (i : Nat) (doc : Doc) (db : DB)
    (h1 : (db.tags.map TagRow.slug).Nodup) (h2 : db.doc_tags.Nodup) :
    (((classifyStage s i doc db).2.tags.map TagRow.slug).Nodup) ∧
      (classifyStage s i doc db).2.doc_tags.Nodup := by
  cases hc : s.classify with
  | error e =>
    simp only [classifyStage, hc]
    exact ⟨h1, h2⟩
  | ok r =>
    simp only [classifyStage, hc]
    set d2 := if r.date ≠ "" then
        (match s.parse_isoformat r.date with
          | some d => { (if r.title ≠ "" then { doc with title := some r.title } else doc) with
              created_date := some d }
          | none => (if r.title ≠ "" then { doc with title := some r.title } else doc))
      else (if r.title ≠ "" then { doc with title := some r.title } else doc) with hd2
    set p1 := if r.document_type ≠ "" then applyDocType d2 db r.document_type else (d2, db)
      with hp1
    have hp1t : p1.2.tags = db.tags ∧ p1.2.doc_tags = db.doc_tags := by
      rw [hp1]; split
      · have h := applyDocType_frame d2 db r.document_type
        exact ⟨h.2.2.2.1, h.2.2.2.2.1⟩
      · exact ⟨rfl, rfl⟩
    set p2 := if r.correspondent ≠ "" then applyCorrespondent p1.1 p1.2 r.correspondent else p1
      with hp2
    have hp2t : p2.2.tags = db.tags ∧ p2.2.doc_tags = db.doc_tags := by
      rw [hp2]; split
      · have h := applyCorrespondent_frame p1.1 p1.2 r.correspondent
        exact ⟨h.2.2.2.1.trans hp1t.1, h.2.2.2.2.1.trans hp1t.2⟩
      · exact hp1t
    have := applyTags_nodup i r.tags p2.2 (by rw [hp2t.1]; exact h1) (by rw [hp2t.2]; exact h2)
    simpa [log_step] using this

/-- C8: running the classification stage twice with the same classifier output
never yields two `Tag` rows with the same slug nor two identical
`(document, tag)` associations: both uniqueness invariants are preserved. -/
theorem classify_twice_tag_dedup (s : Services) (i : Nat) (d0 d1 : Doc) (db : DB)
    (h1 : (db.tags.map TagRow.slug).Nodup) (h2 : db.doc_tags.Nodup) :
    ((((classifyStage s i d1 (classifyStage s i d0 db).2).2).tags.map TagRow.slug).Nodup) ∧
      (((classifyStage s i d1 (classifyStage s i d0 db).2).2).doc_tags.Nodup) := by
  have ha := classifyStage_nodup s i d0 db h1 h2
  exact classifyStage_nodup s i d1 _ ha.1 ha.2

theorem classify_twice_tag_dedup_witness :
    ((((classifyStage exSvcTags 0 {} (classifyStage exSvcTags 0 {} ({} : DB)).2).2).tags.map
        TagRow.slug).Nodup) ∧
      (((classifyStage exSvcTags 0 {} (classifyStage exSvcTags 0 {} ({} : DB)).2).2).doc_tags.Nodup) :=
  classify_twice_tag_dedup exSvcTags 0 {} {} {} (by decide) (by decide)

/-- Steps 2–5 never unset the content stored by the OCR step, never remove
`complete` entries, and the done-block appends exactly one `complete` entry. -/
theorem afterOcr_spec (s : Services) (i : Nat) (doc : Doc) (db : DB) (q : Doc)
    (hq : lookupDoc db i = some q) :
    (∃ d, lookupDoc (afterOcr s i doc db) i = some d ∧ d.content = doc.content ∧
      d.status = DocumentStatus.done) ∧
    countStep (afterOcr s i doc db) i "complete" = countStep db i "complete" + 1 := by
  simp only [afterOcr]
  set c := classifyStage s i doc db with hc
  obtain ⟨c1, c2, ⟨cst, cm, c3⟩, c4⟩ := classifyStage_frame s i doc db
  rw [← hc] at c1 c2 c3 c4
  set f := fieldsStage s i c.1 c.2 with hf
  obtain ⟨f1, f2, ⟨fst2, fm, f3⟩⟩ := fieldsStage_frame s i c.1 c.2
  rw [← hf] at f1 f2 f3
  set em := embeddingsStage s i f.1 f.2 with hem
  obtain ⟨e1, e2, ⟨est, emsg, e3⟩, e4⟩ := embeddingsStage_frame s i f.1 f.2
  rw [← hem] at e1 e2 e3 e4
  set t := thumbnailStage s i em.1 em.2 with ht
  obtain ⟨t1, t2, ⟨tst, tm, t3⟩, t4⟩ := thumbnailStage_frame s i em.1 em.2
  rw [← ht] at t1 t2 t3 t4
  have hdocs : t.2.docs = db.docs := by rw [t1, e1, f1, c1]
  have hlook : lookupDoc t.2 i = some q := (lookupDoc_congr i hdocs).trans hq
  refine ⟨⟨{ t.1 with status := DocumentStatus.done, modified_date := s.now }, ?_, ?_, rfl⟩, ?_⟩
  · rw [lookupDoc_log_step]
    exact lookupDoc_updateDoc_self _ hlook
  · show t.1.content = doc.content
    rw [t2, e2, f2, c2]
  · rw [show countStep (log_step (updateDoc t.2 i
        { t.1 with status := DocumentStatus.done, modified_date := s.now }) i
        "complete" "success" "Processing complete") i "complete"
        = countStep (updateDoc t.2 i
          { t.1 with status := DocumentStatus.done, modified_date := s.now }) i "complete" + 1
      from countStep_log_step_self _ _ _ _ _]
    have h1 : countStep (updateDoc t.2 i
        { t.1 with status := DocumentStatus.done, modified_date := s.now }) i "complete"
        = countStep t.2 i "complete" := countStep_congr i _ rfl
    rw [h1, countStep_of_logs_append i "complete" t3 (by simp),
      countStep_of_logs_append i "complete" e3 (by simp),
      countStep_of_logs_append i "complete" f3 (by simp),
      countStep_of_logs_append i "complete" c3 (by simp)]

/-- A first-time run on an existing document with a successful OCR stage
returns the success dict and ends in `afterOcr` applied after the `start` and
`ocr` entries. -/
theorem process_document_ok_eq (db : DB) (i : Nat) (s : Services) (d0 : Doc) (text : String)
    (hl : lookupDoc db i = some d0) (ho : s.ocr = .ok text) :
    process_document db i s = (RunResult.ok,
      afterOcr s i { d0 with status := DocumentStatus.processing, content := some text }
        (log_step (updateDoc
            (log_step (updateDoc db i { d0 with status := DocumentStatus.processing }) i
              "start" "info" "Processing started")
            i { d0 with status := DocumentStatus.processing, content := some text })
          i "ocr" "success" ("Extracted " ++ toString text.length ++ " characters"))) := by
  simp only [process_document, hl, ho]

/-- C1 (amended): a first-time run that terminates with the success dict
leaves the document's `content` set (non-null) and appends exactly one
`complete` log entry (so a document first processed from a log with no
`complete` entry has exactly one); a rerun that terminates with the success
dict appends no `complete` entry at all — its completion entry is
`reprocess_complete` — and (as the counterexample shows) may leave `content`
null. -/
theorem done_implies_content_and_complete (db : DB) (i : Nat) (s : Services) :
    ((process_document db i s).1 = RunResult.ok →
      (∃ d, lookupDoc (process_document db i s).2 i = some d ∧ d.content.isSome = true) ∧
      countStep (process_document db i s).2 i "complete" = countStep db i "complete" + 1) ∧
    ((reprocess_document db i s).1 = RunResult.ok →
      countStep (reprocess_document db i s).2 i "complete" = countStep db i "complete" ∧
      countStep (reprocess_document db i s).2 i "reprocess_complete"
        = countStep db i "reprocess_complete" + 1) := by
  constructor
  · intro hres
    rcases hl : lookupDoc db i with _ | d0
    · rw [process_document] at hres
      simp [hl] at hres
    · rcases ho : s.ocr with e | text
      · rw [process_document] at hres
        simp [hl, ho] at hres
      · have heq := process_document_ok_eq db i s d0 text hl ho
        set dbOcr := log_step (updateDoc
            (log_step (updateDoc db i { d0 with status := DocumentStatus.processing }) i
              "start" "info" "Processing started")
            i { d0 with status := DocumentStatus.processing, content := some text })
          i "ocr" "success" ("Extracted " ++ toString text.length ++ " characters") with hdbOcr
        have hq0 : lookupDoc (log_step (updateDoc db i
              { d0 with status := DocumentStatus.processing }) i
              "start" "info" "Processing started") i
            = some { d0 with status := DocumentStatus.processing } := by
          rw [lookupDoc_log_step]
          exact lookupDoc_updateDoc_self _ hl
        have hq : lookupDoc dbOcr i
            = some { d0 with status := DocumentStatus.processing, content := some text } := by
          rw [hdbOcr, lookupDoc_log_step]
          exact lookupDoc_updateDoc_self _ hq0
        obtain ⟨⟨d, hd, hdc, hds⟩, hcount⟩ := afterOcr_spec s i
          { d0 with status := DocumentStatus.processing, content := some text } dbOcr _ hq
        rw [heq]
        constructor
        · exact ⟨d, hd, by rw [hdc]; rfl⟩
        · rw [hcount, hdbOcr]
          rw [countStep_log_step_of_ne _ _ _ _ _ _ _ (by decide)]
          have h1 : countStep (updateDoc
              (log_step (updateDoc db i { d0 with status := DocumentStatus.processing }) i
                "start" "info" "Processing started")
              i { d0 with status := DocumentStatus.processing, content := some text }) i "complete"
              = countStep (log_step (updateDoc db i
                  { d0 with status := DocumentStatus.processing }) i
                "start" "info" "Processing started") i "complete" := countStep_congr i _ rfl
          rw [h1, countStep_log_step_of_ne _ _ _ _ _ _ _ (by decide)]
          have h2 : countStep (updateDoc db i { d0 with status := DocumentStatus.processing }) i
              "complete" = countStep db i "complete" := countStep_congr i _ rfl
          rw [h2]
  · intro hres
    rcases hl : lookupDoc db i with _ | d0
    · rw [reprocess_document] at hres
      simp [hl] at hres
    · obtain ⟨docA, heq⟩ := reprocess_document_shape db i s d0 hl
      rw [heq]
      set dbStart := log_step (updateDoc db i { d0 with status := DocumentStatus.processing }) i
        "reprocess_start" "info" "Reprocessing started" with hdbStart
      obtain ⟨-, hc1, hc2⟩ := reprocessTail_spec s i docA dbStart
      constructor
      · rw [show (RunResult.ok, reprocessTail s i docA dbStart).2
            = reprocessTail s i docA dbStart from rfl, hc1, hdbStart,
          countStep_log_step_of_ne _ _ _ _ _ _ _ (by decide)]
        exact countStep_congr i _ rfl
      · rw [show (RunResult.ok, reprocessTail s i docA dbStart).2
            = reprocessTail s i docA dbStart from rfl, hc2, hdbStart,
          countStep_log_step_of_ne _ _ _ _ _ _ _ (by decide)]
        have : countStep (updateDoc db i { d0 with status := DocumentStatus.processing }) i
            "reprocess_complete" = countStep db i "reprocess_complete" := countStep_congr i _ rfl
        rw [this]

theorem done_implies_content_and_complete_witness :
    (process_document exDB 0 exSvcOk).1 = RunResult.ok ∧
    countStep (process_document exDB 0 exSvcOk).2 0 "complete" = countStep exDB 0 "complete" + 1 ∧
    (reprocess_document exDB 0 exSvcOk).1 = RunResult.ok ∧
    countStep (reprocess_document exDB 0 exSvcOk).2 0 "reprocess_complete"
      = countStep exDB 0 "reprocess_complete" + 1 := by
  have h := done_implies_content_and_complete exDB 0 exSvcOk
  exact ⟨by decide, (h.1 (by decide)).2, by decide, (h.2 (by decide)).2⟩

/-- C1 counterexample: a rerun of a document whose content is null and whose
re-run OCR raises still terminates with the success dict and a `done` status,
yet leaves `content` null and writes no `complete` log entry at all —
refuting both halves of the claim for reruns. -/
theorem rerun_done_without_content_or_complete :
    (reprocess_document exDB 0 exSvcErr).1 = RunResult.ok ∧
    ((lookupDoc (reprocess_document exDB 0 exSvcErr).2 0).map Doc.status)
      = some DocumentStatus.done ∧
    ((lookupDoc (reprocess_document exDB 0 exSvcErr).2 0).bind Doc.content) = none ∧
    countStep (reprocess_document exDB 0 exSvcErr).2 0 "complete" = 0 := by
  refine ⟨?_, ?_, ?_, ?_⟩ <;> decide

/-! ## Chunker claims -/

/-- One unfolding step of the chunking loop. -/
theorem chunk_text_go_succ (text : List Char) (cs ov : Int) (fuel : Nat) (start : Int) :
    chunk_text_go text cs ov (fuel + 1) start =
      if start < (text.length : Int) then
        match chunk_text_go text cs ov fuel (start + cs - ov) with
        | none => none
        | some rest =>
          some (if (stripChars (pySlice text start (start + cs))).isEmpty then rest
            else stripChars (pySlice text start (start + cs)) :: rest)
      else some [] := rfl

theorem chunk_text_go_stuck : ∀ fuel, chunk_text_go ['a'] 1 1 fuel 0 = none := by
  intro fuel
  induction fuel with
  | zero => rfl
  | succ f ih =>
    rw [chunk_text_go_succ]
    rw [if_pos (by norm_num)]
    rw [show ((0 : Int) + 1 - 1) = 0 from by norm_num, ih]

/-- C6: the code performs no `overlap < size` validation; with
`chunk_size = overlap = 1` the loop never advances (`start` stays 0), so on
any non-empty text the call never terminates: no amount of fuel completes the
loop.  This contradicts the claim that invalid combinations are rejected. -/
theorem chunk_unvalidated_overlap_diverges : ∀ fuel, chunk_text ['a'] 1 1 fuel = none := by
  intro fuel
  rw [chunk_text, if_neg (by simp)]
  exact chunk_text_go_stuck fuel

theorem dropWhile_eq_self_of_none (p : Char → Bool) (l : List Char)
    (h : ∀ c ∈ l, p c = false) : l.dropWhile p = l := by
  cases l with
  | nil => rfl
  | cons a l =>
    rw [List.dropWhile_cons, h a (List.mem_cons_self a l)]
    simp

theorem stripChars_of_no_ws (l : List Char) (h : ∀ c ∈ l, c.isWhitespace = false) :
    stripChars l = l := by
  unfold stripChars
  rw [dropWhile_eq_self_of_none _ _ h,
    dropWhile_eq_self_of_none _ _ (fun c hc => h c (List.mem_reverse.mp hc)),
    List.reverse_reverse]

theorem isEmpty_false_of_length_ne (l : List Char) (h : l.length ≠ 0) : l.isEmpty = false := by
  cases l with
  | nil => simp at h
  | cons a l => rfl

/-- C7 (amended): on a 1200-character text containing no whitespace (so that
no chunk is blank and stripping is the identity), `chunk_text 500 50` yields
exactly the three windows `[0,500)`, `[450,950)`, `[900,1200)`: each
consecutive pair overlaps in exactly 50 characters (the first 50 characters of
a chunk are the last 50 of its predecessor) and together the chunks cover the
whole text; and on the empty text the result is `[]`.  (For texts with
whitespace the emitted chunks are stripped and blank chunks are dropped, so
coverage can fail — see the counterexample.) -/
theorem chunk_1200_cover_overlap (t : List Char) (hlen : t.length = 1200)
    (hws : ∀ c ∈ t, c.isWhitespace = false) :
    chunk_text t 500 50 4 = some [t.take 500, (t.drop 450).take 500, t.drop 900] ∧
    ((t.drop 450).take 500).take 50 = (t.take 500).drop 450 ∧
    (t.drop 900).take 50 = ((t.drop 450).take 500).drop 450 ∧
    t.take 500 ++ (((t.drop 450).take 500).drop 50) ++ ((t.drop 900).drop 50) = t ∧
    chunk_text [] 500 50 1 = some [] := by
  have hcast : ((t.length : Nat) : Int) = 1200 := by rw [hlen]; rfl
  have hs0 : pySlice t 0 500 = t.take 500 := by
    simp [pySlice, pyClamp, hlen]
  have hs450 : pySlice t 450 950 = (t.drop 450).take 500 := by
    simp [pySlice, pyClamp, hlen]
  have hs900 : pySlice t 900 1400 = t.drop 900 := by
    simp [pySlice, pyClamp, hlen]
  have hstrip0 : stripChars (t.take 500) = t.take 500 :=
    stripChars_of_no_ws _ (fun c hc => hws c (List.take_subset _ _ hc))
  have hstrip450 : stripChars ((t.drop 450).take 500) = (t.drop 450).take 500 :=
    stripChars_of_no_ws _
      (fun c hc => hws c (List.drop_subset _ _ (List.take_subset _ _ hc)))
  have hstrip900 : stripChars (t.drop 900) = t.drop 900 :=
    stripChars_of_no_ws _ (fun c hc => hws c (List.drop_subset _ _ hc))
  have hne0 : (t.take 500).isEmpty = false :=
    isEmpty_false_of_length_ne _ (by simp [hlen])
  have hne450 : ((t.drop 450).take 500).isEmpty = false :=
    isEmpty_false_of_length_ne _ (by simp [hlen])
  have hne900 : (t.drop 900).isEmpty = false :=
    isEmpty_false_of_length_ne _ (by simp [hlen])
  have g1 : chunk_text_go t 500 50 1 1350 = some [] := by
    rw [show (1 : Nat) = 0 + 1 from rfl, chunk_text_go_succ, if_neg (by rw [hcast]; norm_num)]
  have g2 : chunk_text_go t 500 50 2 900 = some [t.drop 900] := by
    rw [show (2 : Nat) = 1 + 1 from rfl, chunk_text_go_succ, if_pos (by rw [hcast]; norm_num),
      show ((900 : Int) + 500 - 50) = 1350 from by norm_num, g1,
      show ((900 : Int) + 500) = 1400 from by norm_num, hs900, hstrip900, hne900]
    simp
  have g3 : chunk_text_go t 500 50 3 450 = some [(t.drop 450).take 500, t.drop 900] := by
    rw [show (3 : Nat) = 2 + 1 from rfl, chunk_text_go_succ, if_pos (by rw [hcast]; norm_num),
      show ((450 : Int) + 500 - 50) = 900 from by norm_num, g2,
      show ((450 : Int) + 500) = 950 from by norm_num, hs450, hstrip450, hne450]
    simp
  have g4 : chunk_text_go t 500 50 4 0 = some [t.take 500, (t.drop 450).take 500, t.drop 900] := by
    rw [show (4 : Nat) = 3 + 1 from rfl, chunk_text_go_succ, if_pos (by rw [hcast]; norm_num),
      show ((0 : Int) + 500 - 50) = 450 from by norm_num, g3,
      show ((0 : Int) + 500) = 500 from by norm_num, hs0, hstrip0, hne0]
    simp
  refine ⟨?_, ?_, ?_, ?_, rfl⟩
  · rw [chunk_text, if_neg (by simp [List.isEmpty_iff, show t ≠ [] from
      fun h => by simp [h] at hlen])]
    exact g4
  · rw [List.take_take, List.drop_take]
    norm_num
  · rw [List.drop_take, List.drop_drop]
  · rw [List.drop_take, List.drop_drop,
      show ((t.drop 900).drop 50) = t.drop 950 from by rw [List.drop_drop],
      show (50 + 450 : Nat) = 500 from by norm_num,
      show ((t.drop 500).take (500 - 50)) = (t.drop 500).take 450 from by norm_num,
      show t.take 500 ++ (t.drop 500).take 450 = t.take 950 from by
        rw [show (950 : Nat) = 500 + 450 from by norm_num, List.take_add],
      List.take_append_drop]

set_option maxRecDepth 100000 in
/-- C7 counterexample: on a 1200-character all-whitespace text every window is
blank, so the chunk list is empty and cannot cover the (non-empty) text —
refuting the claim for arbitrary 1200-character texts. -/
theorem chunk_1200_spaces_empty :
    chunk_text (List.replicate 1200 ' ') 500 50 4 = some [] ∧
      0 < (List.replicate 1200 ' ').length := by
  constructor
  · rfl
  · simp

set_option maxRecDepth 100000 in
theorem chunk_1200_cover_overlap_witness :
    chunk_text (List.replicate 1200 'a') 500 50 4 =
      some [(List.replicate 1200 'a').take 500,
        ((List.replicate 1200 'a').drop 450).take 500,
        (List.replicate 1200 'a').drop 900] :=
  (chunk_1200_cover_overlap (List.replicate 1200 'a') (by simp)
    (fun c hc => by rw [(List.eq_of_mem_replicate hc)]; rfl)).1

theorem rerun_replaces_fields_witness :
    ((reprocess_document exDB 0 exSvcOk).2.fields.filter (fun fr => fr.document_id == 0))
      = [⟨0, "total", "42", "amount"⟩] := by
  have h := (rerun_replaces_fields exDB 0 exSvcOk {} (by decide)).2
    [("total", "42", "amount")] rfl
  simpa using h

/-! ## Hybrid search claims -/

unseal List.merge List.mergeSort in
theorem mergeSort_pair {α : Type} (a b : α) (le : α → α → Bool) :
    [a, b].mergeSort le = if le a b then [a, b] else [b, a] := by
  rw [List.mergeSort, List.splitInTwo_fst, List.splitInTwo_snd]
  norm_num
  cases hle : le a b <;> simp [List.mergeSort, List.merge, hle]

/-- C3: the hybrid ranking contains exactly the union of the full-text and
semantic id sets; every entry carries the combined score
`ft * 0.4 + sem * 0.6` with a missing component as 0; the list is sorted
descending by combined score; pagination is the offset/size slice of the
sorted id list; and on the spec's concrete instance (ft-scores A=0.8, B=0.0;
sem-scores A=0.2, B=0.9, with A = id 0 and B = id 1) B ranks above A with
combined scores 0.54 and 0.44. -/
theorem hybrid_fusion_ranking :
    (∀ ft sem : List (DocId × ℚ),
      ((hybridRank ft sem).Pairwise (fun a b => b.2 ≤ a.2)) ∧
      (∀ i : DocId, (i ∈ (hybridRank ft sem).map Prod.fst ↔
        i ∈ ft.map Prod.fst ∨ i ∈ sem.map Prod.fst)) ∧
      (∀ p ∈ hybridRank ft sem,
        p.2 = scoreOf ft p.1 * (2 / 5) + scoreOf sem p.1 * (3 / 5)) ∧
      (∀ offset size : Nat, hybridPage ft sem offset size
        = (((hybridRank ft sem).map Prod.fst).drop offset).take size)) ∧
    hybridRank [(0, 4 / 5), (1, 0)] [(0, 1 / 5), (1, 9 / 10)]
      = [(1, 27 / 50), (0, 11 / 25)] := by
  constructor
  · intro ft sem
    refine ⟨?_, ?_, ?_, ?_⟩
    · have h : ((combinedScores ft sem).mergeSort (fun a b => decide (b.2 ≤ a.2))).Pairwise
          (fun a b => (decide (b.2 ≤ a.2)) = true) :=
        List.sorted_mergeSort
          (fun a b c hab hbc => by
            simp only [decide_eq_true_eq] at hab hbc ⊢
            exact le_trans hbc hab)
          (fun a b => by
            simp only [Bool.or_eq_true, decide_eq_true_eq]
            exact le_total b.2 a.2)
          (combinedScores ft sem)
      exact h.imp (fun hab => of_decide_eq_true hab)
    · intro i
      simp [hybridRank, combinedScores, hybridIds, List.mem_map, List.mem_dedup,
        List.mem_append]
    · intro p hp
      have hp2 : p ∈ combinedScores ft sem := by
        simpa [hybridRank, List.mem_mergeSort] using hp
      simp only [combinedScores, List.mem_map] at hp2
      obtain ⟨j, hj, hpe⟩ := hp2
      rw [← hpe]
    · intro offset size
      simp [hybridPage, List.map_take, List.map_drop]
  · have hcs : combinedScores [(0, 4 / 5), (1, 0)] [(0, 1 / 5), (1, 9 / 10)]
        = [(0, (4 : ℚ) / 5 * (2 / 5) + 1 / 5 * (3 / 5)),
           (1, (0 : ℚ) * (2 / 5) + 9 / 10 * (3 / 5))] := rfl
    have hv0 : (4 : ℚ) / 5 * (2 / 5) + 1 / 5 * (3 / 5) = 11 / 25 := by norm_num
    have hv1 : (0 : ℚ) * (2 / 5) + 9 / 10 * (3 / 5) = 27 / 50 := by norm_num
    simp only [hybridRank]
    rw [hcs, hv0, hv1, mergeSort_pair]
    norm_num

theorem hybrid_fusion_ranking_witness :
    ((1 : DocId), (27 / 50 : ℚ)).2 =
      scoreOf [(0, 4 / 5), (1, 0)] (1, (27 / 50 : ℚ)).1 * (2 / 5) +
        scoreOf [(0, 1 / 5), (1, 9 / 10)] (1, (27 / 50 : ℚ)).1 * (3 / 5) :=
  (hybrid_fusion_ranking.1 [(0, 4 / 5), (1, 0)] [(0, 1 / 5), (1, 9 / 10)]).2.2.1
    (1, 27 / 50) (by rw [hybrid_fusion_ranking.2]; simp)

end DocuAI
